import Mathlib

/-!
Verification of the pdfex PDF parser against its natural-language
specification.  The Go source is shallowly embedded: byte buffers become
`List Nat` (each entry a byte value), Go strings become `List Char`,
fallible functions return `Except String`.  Definitions mirror the Go
functions of the same name; spec-side reference definitions are
documented as such.
-/

set_option linter.unusedVariables false
set_option maxRecDepth 10000

namespace Pdfex

/-- Embeds `decodeRunLength` (internal/content, filter file): byte `n`:
`n = 128` ends the stream; `n < 128` copies the next `n + 1` literal
bytes; `n > 128` repeats the next byte `257 - n` times.  The two error
returns mirror the Go error paths (not enough data for a literal copy,
resp. for a repeat); on error the whole decode errors, as in Go. -/
def decodeRunLength : List Nat → Except String (List Nat)
  | [] => .ok []
  | n :: rest =>
    if n = 128 then .ok []
    else if n < 128 then
      if rest.length < n + 1 then
        .error "run length decode error: not enough data for literal copy"
      else
        (decodeRunLength (rest.drop (n + 1))).map (fun tail => rest.take (n + 1) ++ tail)
    else
      match rest with
      | [] => .error "run length decode error: not enough data for repeat"
      | b :: rest2 =>
        (decodeRunLength rest2).map (fun tail => List.replicate (257 - n) b ++ tail)
termination_by l => l.length
decreasing_by
  · simp only [List.length_cons, List.length_drop]; omega
  · simp only [List.length_cons]; omega

/-- Reference run-length encoder used by the spec's round-trip property
(§8, item 4): the buffer is emitted as literal runs of at most 128 bytes
(prefix byte `len - 1 ≤ 127`), terminated by the end-of-data marker 128. -/
def encodeRunLength (B : List Nat) : List Nat :=
  if B = [] then [128]
  else ((B.take 128).length - 1) :: (B.take 128 ++ encodeRunLength (B.drop 128))
termination_by B.length
decreasing_by
  rename_i h
  have hB : 0 < B.length := List.length_pos.mpr h
  simp only [List.length_drop]
  omega

theorem decodeRunLength_encode (n : Nat) :
    ∀ B : List Nat, B.length = n →
      decodeRunLength (encodeRunLength B) = .ok B := by
  induction n using Nat.strong_induction_on with
  | _ n ih =>
    intro B hB
    rw [encodeRunLength]
    by_cases hemp : B = []
    · subst hemp
      simp [decodeRunLength]
    · simp only [hemp, if_false]
      have hpos : 0 < B.length := List.length_pos.mpr hemp
      have htk : (B.take 128).length = min 128 B.length := List.length_take 128 B
      have hk1 : 1 ≤ (B.take 128).length := by omega
      have hk128 : (B.take 128).length ≤ 128 := by omega
      rw [decodeRunLength.eq_def]
      have hne : ¬ ((B.take 128).length - 1 = 128) := by omega
      have hlt : (B.take 128).length - 1 < 128 := by omega
      have hlen : ¬ ((B.take 128 ++ encodeRunLength (B.drop 128)).length
          < (B.take 128).length - 1 + 1) := by
        simp only [List.length_append]
        omega
      simp only [hne, if_false, hlt, if_true, hlen]
      have heq : (B.take 128).length - 1 + 1 = (B.take 128).length := by omega
      rw [heq, List.take_left, List.drop_left]
      have hdroplen : (B.drop 128).length < n := by
        simp only [List.length_drop]; omega
      rw [ih (B.drop 128).length hdroplen (B.drop 128) rfl]
      simp [Except.map, List.take_append_drop]

/-- C4: run-length decoding is a left inverse of the reference run-length
encoder: encode-then-decode of any byte buffer yields exactly the
original buffer. -/
theorem runLength_roundtrip (B : List Nat) :
    decodeRunLength (encodeRunLength B) = .ok B :=
  decodeRunLength_encode B.length B rfl

/-- Embeds `paethPredictor` (internal/content, predictor file): the Paeth
predictor of the PNG specification, computed over signed integers exactly
as the Go code does with `int` casts and `abs`. -/
def paethPredictor (a b c : Nat) : Nat :=
  let p : Int := (a : Int) + (b : Int) - (c : Int)
  let pa := (p - (a : Int)).natAbs
  let pb := (p - (b : Int)).natAbs
  let pc := (p - (c : Int)).natAbs
  if pa ≤ pb ∧ pa ≤ pc then a
  else if pb ≤ pc then b
  else c

/-- One row of the PNG predictor loop in `applyPNGPredictor`: `ftype` is the
row's leading filter-type byte, `prev` the previously decoded row (`none`
for the first row, matching the `row == 0` tests in Go), `rowData` the
encoded row.  Byte arithmetic wraps modulo 256 as Go `byte` addition does;
`resultRow[i-bytesPerPixel]` reads come from the already-decoded prefix. -/
def pngDecodeRow (ftype bpp : Nat) (prev : Option (List Nat)) (rowData : List Nat) : List Nat :=
  match ftype with
  | 0 => rowData
  | 1 =>
    (List.range rowData.length).foldl (fun acc i =>
      acc ++ [if i < bpp then rowData.getD i 0
              else (rowData.getD i 0 + acc.getD (i - bpp) 0) % 256]) []
  | 2 =>
    match prev with
    | none => rowData
    | some p =>
      (List.range rowData.length).foldl (fun acc i =>
        acc ++ [(rowData.getD i 0 + p.getD i 0) % 256]) []
  | 3 =>
    (List.range rowData.length).foldl (fun acc i =>
      acc ++ [(rowData.getD i 0 +
        (((if bpp ≤ i then acc.getD (i - bpp) 0 else 0) +
          (match prev with | none => 0 | some p => p.getD i 0)) % 256) / 2) % 256]) []
  | 4 =>
    (List.range rowData.length).foldl (fun acc i =>
      acc ++ [(rowData.getD i 0 +
        paethPredictor
          (if bpp ≤ i then acc.getD (i - bpp) 0 else 0)
          (match prev with | none => 0 | some p => p.getD i 0)
          (match prev with
           | none => 0
           | some p => if bpp ≤ i then p.getD (i - bpp) 0 else 0)) % 256]) []
  | _ => rowData

/-- The row loop of `applyPNGPredictor`: data is consumed in rows of
`rowLength + 1` bytes, the first byte of each row being the filter type;
each decoded row becomes the `prev` row of the next iteration. -/
def pngDecodeRows (bpp rowLength : Nat) (prev : Option (List Nat)) : List Nat → List Nat
  | [] => []
  | ftype :: rest =>
    pngDecodeRow ftype bpp prev (rest.take rowLength) ++
      pngDecodeRows bpp rowLength (some (pngDecodeRow ftype bpp prev (rest.take rowLength)))
        (rest.drop rowLength)
termination_by l => l.length
decreasing_by
  simp only [List.length_cons, List.length_drop]; omega

/-- Embeds `applyPNGPredictor` (internal/content, predictor file).  The Go
`int` parameters are nonnegative at every call site considered here, so
they are modelled as `Nat`.  The guard `rows == 0 || len(data) % rowStride
!= 0` and the error string are verbatim from the source; on success the
rows are decoded sequentially (the `columns` parameter is unused by the
loop, as in Go). -/
def applyPNGPredictor (data : List Nat) (columns bytesPerPixel rowLength : Nat) :
    Except String (List Nat) :=
  let rowStride := rowLength + 1
  let rows := data.length / rowStride
  if rows = 0 ∨ data.length % rowStride ≠ 0 then
    .error "invalid data size for PNG predictor"
  else
    .ok (pngDecodeRows bytesPerPixel rowLength none data)

theorem foldl_append_singleton_length (f : List Nat → Nat → Nat) (l : List Nat) :
    ∀ init : List Nat,
      (l.foldl (fun acc i => acc ++ [f acc i]) init).length = init.length + l.length := by
  induction l with
  | nil => intro init; simp
  | cons x xs ih =>
    intro init
    simp only [List.foldl_cons, ih, List.length_append, List.length_cons, List.length_nil]
    omega

theorem pngDecodeRow_length (ftype bpp : Nat) (prev : Option (List Nat))
    (rowData : List Nat) :
    (pngDecodeRow ftype bpp prev rowData).length = rowData.length := by
  rw [pngDecodeRow.eq_def]
  match ftype with
  | 0 => simp
  | 1 =>
    simpa using foldl_append_singleton_length
      (fun acc i => if i < bpp then rowData.getD i 0
                    else (rowData.getD i 0 + acc.getD (i - bpp) 0) % 256)
      (List.range rowData.length) []
  | 2 =>
    match prev with
    | none => simp
    | some p =>
      simpa using foldl_append_singleton_length
        (fun acc i => (rowData.getD i 0 + p.getD i 0) % 256)
        (List.range rowData.length) []
  | 3 =>
    simpa using foldl_append_singleton_length
      (fun acc i => (rowData.getD i 0 +
        (((if bpp ≤ i then acc.getD (i - bpp) 0 else 0) +
          (match prev with | none => 0 | some p => p.getD i 0)) % 256) / 2) % 256)
      (List.range rowData.length) []
  | 4 =>
    simpa using foldl_append_singleton_length
      (fun acc i => (rowData.getD i 0 +
        paethPredictor
          (if bpp ≤ i then acc.getD (i - bpp) 0 else 0)
          (match prev with | none => 0 | some p => p.getD i 0)
          (match prev with
           | none => 0
           | some p => if bpp ≤ i then p.getD (i - bpp) 0 else 0)) % 256)
      (List.range rowData.length) []
  | (n + 5) => simp

theorem pngDecodeRows_length (bpp rowLength : Nat) (n : Nat) :
    ∀ (data : List Nat) (prev : Option (List Nat)), data.length = n →
      data.length % (rowLength + 1) = 0 →
      (pngDecodeRows bpp rowLength prev data).length =
        (data.length / (rowLength + 1)) * rowLength := by
  induction n using Nat.strong_induction_on with
  | _ n ih =>
    intro data prev hn hmod
    match data with
    | [] => simp [pngDecodeRows]
    | ftype :: rest =>
      rw [pngDecodeRows]
      have hstride : 0 < rowLength + 1 := Nat.succ_pos _
      have hlen : (ftype :: rest).length = rest.length + 1 := by simp
      have hk := Nat.div_add_mod (rest.length + 1) (rowLength + 1)
      rw [hlen] at hmod
      have hkpos : 0 < (rest.length + 1) / (rowLength + 1) := by
        rcases Nat.eq_zero_or_pos ((rest.length + 1) / (rowLength + 1)) with h0 | h
        · rw [h0] at hk; omega
        · exact h
      have hrest_ge : rowLength ≤ rest.length := by
        have := hk
        nlinarith [Nat.one_le_iff_ne_zero.mpr (Nat.pos_iff_ne_zero.mp hkpos)]
      have htake : (rest.take rowLength).length = rowLength := by
        simp [List.length_take]; omega
      have hdrop : (rest.drop rowLength).length = rest.length - rowLength := by
        simp [List.length_drop]
      have hdropmod : (rest.drop rowLength).length % (rowLength + 1) = 0 := by
        rw [hdrop]
        have : rest.length + 1 = (rowLength + 1) * ((rest.length + 1) / (rowLength + 1)) := by
          omega
        have h2 : rest.length - rowLength =
            (rowLength + 1) * ((rest.length + 1) / (rowLength + 1) - 1) := by
          rw [Nat.mul_sub_one]
          omega
        rw [h2]
        simp [Nat.mul_mod_right]
      have hdroplt : (rest.drop rowLength).length < n := by
        rw [hdrop]; omega
      rw [List.length_append, pngDecodeRow_length, htake,
        ih (rest.drop rowLength).length hdroplt (rest.drop rowLength) _ rfl hdropmod]
      rw [hdrop]
      have hq : rest.length + 1 = (rowLength + 1) * ((rest.length + 1) / (rowLength + 1)) := by
        omega
      have hq2 : (rest.length - rowLength) / (rowLength + 1) =
          (rest.length + 1) / (rowLength + 1) - 1 := by
        have h2 : rest.length - rowLength =
            (rowLength + 1) * ((rest.length + 1) / (rowLength + 1) - 1) := by
          rw [Nat.mul_sub_one]; omega
        rw [h2, Nat.mul_div_cancel_left _ hstride]
      rw [hq2, hlen]
      obtain ⟨m, hm⟩ : ∃ m, (rest.length + 1) / (rowLength + 1) = m + 1 :=
        ⟨(rest.length + 1) / (rowLength + 1) - 1, by omega⟩
      rw [hm]
      simp only [Nat.add_sub_cancel, Nat.succ_mul]
      omega

/-- C8 (counterexample): the claim "applyPNGPredictor fails exactly when the
encoded length is not a whole multiple of row_length + 1" is false at the
empty buffer: 0 is a multiple of every row stride, yet the code's
`rows == 0` guard rejects the empty input. -/
theorem applyPNGPredictor_empty_counterexample :
    applyPNGPredictor [] 1 1 1 = .error "invalid data size for PNG predictor" ∧
      (List.length ([] : List Nat)) % (1 + 1) = 0 := by
  constructor
  · rfl
  · rfl

/-- C8 (amended): `applyPNGPredictor` fails exactly when the encoded length
is zero or not a whole multiple of `rowLength + 1`; on a positive multiple
it succeeds and returns the decoded buffer. -/
theorem applyPNGPredictor_error_iff (data : List Nat) (columns bpp rowLength : Nat) :
    (∃ e, applyPNGPredictor data columns bpp rowLength = .error e) ↔
      (data.length = 0 ∨ data.length % (rowLength + 1) ≠ 0) := by
  unfold applyPNGPredictor
  by_cases hguard : data.length / (rowLength + 1) = 0 ∨ data.length % (rowLength + 1) ≠ 0
  · simp only [hguard, if_true]
    constructor
    · intro _
      rcases hguard with h | h
      · by_cases hmod : data.length % (rowLength + 1) = 0
        · left
          have hdm := Nat.div_add_mod data.length (rowLength + 1)
          rw [h, hmod, Nat.mul_zero] at hdm
          omega
        · right; exact hmod
      · right; exact h
    · intro _; exact ⟨_, rfl⟩
  · simp only [hguard, if_false]
    push_neg at hguard
    constructor
    · rintro ⟨e, he⟩; cases he
    · intro h
      rcases h with h | h
      · exfalso
        apply hguard.1
        rw [h]; simp
      · exact absurd hguard.2 h

/-- C9: whenever `applyPNGPredictor` succeeds, the output length is
`rows * rowLength` with `rows = len(data) / (rowLength + 1)`: exactly one
predictor-tag byte per row is removed, whatever the per-row filter types. -/
theorem applyPNGPredictor_ok_length (data : List Nat) (columns bpp rowLength : Nat)
    (out : List Nat) (h : applyPNGPredictor data columns bpp rowLength = .ok out) :
    out.length = (data.length / (rowLength + 1)) * rowLength := by
  unfold applyPNGPredictor at h
  by_cases hguard : data.length / (rowLength + 1) = 0 ∨ data.length % (rowLength + 1) ≠ 0
  · simp only [hguard, if_true] at h
    cases h
  · simp only [hguard, if_false] at h
    push_neg at hguard
    cases h
    exact pngDecodeRows_length bpp rowLength data.length data none rfl hguard.2

/-- C9 (witness): a concrete success — two rows of one byte each, the second
under the Up filter — instantiating `applyPNGPredictor_ok_length`. -/
theorem applyPNGPredictor_ok_length_witness :
    ([65, 66] : List Nat).length = (([0, 65, 2, 1] : List Nat).length / (1 + 1)) * 1 :=
  applyPNGPredictor_ok_length [0, 65, 2, 1] 1 1 1 [65, 66] (by
    rw [applyPNGPredictor]
    norm_num
    rw [pngDecodeRows]
    norm_num [pngDecodeRow]
    rw [pngDecodeRows]
    norm_num [pngDecodeRow, List.range_succ]
    rw [pngDecodeRows])



/-- Digit class of Go regexp `\d`. -/
def isDigit (b : Nat) : Bool := 48 ≤ b && b ≤ 57

/-- Whitespace class of Go regexp `\s` (tab, newline, vertical tab,
form feed, carriage return, space). -/
def isSpaceByte (b : Nat) : Bool := b = 9 || b = 10 || b = 11 || b = 12 || b = 13 || b = 32

/-- The byte sequence of the token `startxref`. -/
def startxrefToken : List Nat := "startxref".toList.map Char.toNat

/-- Maximal digit prefix of a byte list (the greedy `\d+` of the Go regexp). -/
def takeDigits : List Nat → List Nat
  | [] => []
  | b :: rest => if isDigit b then b :: takeDigits rest else []

/-- Skip the maximal whitespace prefix (the greedy `\s*` of the Go regexp). -/
def dropSpaces : List Nat → List Nat
  | [] => []
  | b :: rest => if isSpaceByte b then dropSpaces rest else b :: rest

/-- Decimal value of a digit string, as `strconv.ParseInt(…, 10, 64)`
computes it (overflow is out of scope for the inputs considered). -/
def digitsToNat (ds : List Nat) : Nat := ds.foldl (fun acc d => acc * 10 + (d - 48)) 0

/-- Whether the Go regexp `startxref\s*(\d+)` matches at the head of `l`;
returns the value of the captured digit group on a match.  Since `\s` and
`\d` are disjoint classes, the greedy semantics reduce to: the literal
token, then the maximal whitespace run, then at least one digit. -/
def startxrefMatchAt (l : List Nat) : Option Nat :=
  if startxrefToken.isPrefixOf l then
    let ds := takeDigits (dropSpaces (l.drop startxrefToken.length))
    if ds = [] then none else some (digitsToNat ds)
  else none

/-- Leftmost match of `startxref\s*(\d+)` in `l`, as Go
`Regexp.FindSubmatch` computes it: positions are tried left to right. -/
def findStartxref : List Nat → Option Nat
  | [] => none
  | b :: rest =>
    match startxrefMatchAt (b :: rest) with
    | some v => some v
    | none => findStartxref rest

/-- Embeds `findLastXRefOffset` (internal/document/xref.go): reads the
trailing `min 1024 len` bytes of the file (the read is modelled as
complete) and applies `startxrefPattern.FindSubmatch`, which yields the
leftmost match; errors when there is no match, as the Go code does. -/
def findLastXRefOffset (file : List Nat) : Except String Nat :=
  match findStartxref (file.drop (file.length - 1024)) with
  | some v => .ok v
  | none => .error "startxref not found in last 1024 bytes"

/-- Spec-side reference ("locate the last occurrence of `startxref`
followed by a decimal integer"): the value at the last matching position
of the window. -/
def specLastStartxref : List Nat → Option Nat
  | [] => none
  | b :: rest =>
    match specLastStartxref rest with
    | some v => some v
    | none => startxrefMatchAt (b :: rest)

/-- A trailing window holding two `startxref NUM` occurrences. -/
def twoStartxrefInput : List Nat := "startxref 5 startxref 7".toList.map Char.toNat

theorem findStartxref_some_iff (l : List Nat) (v : Nat) :
    findStartxref l = some v ↔
      ∃ i, startxrefMatchAt (l.drop i) = some v ∧
        ∀ j, j < i → startxrefMatchAt (l.drop j) = none := by
  induction l with
  | nil =>
    simp only [findStartxref]
    constructor
    · intro h; cases h
    · rintro ⟨i, hi, _⟩
      rw [List.drop_nil] at hi
      simp [startxrefMatchAt, startxrefToken] at hi
  | cons b rest ih =>
    rw [findStartxref]
    cases hm : startxrefMatchAt (b :: rest) with
    | some w =>
      simp only
      constructor
      · intro h
        cases h
        exact ⟨0, by simpa using hm, by intro j hj; omega⟩
      · rintro ⟨i, hi, hmin⟩
        cases i with
        | zero => simp only [List.drop_zero] at hi; rw [hm] at hi; exact hi.symm ▸ rfl
        | succ i' =>
          have := hmin 0 (Nat.succ_pos _)
          simp only [List.drop_zero] at this
          rw [hm] at this
          cases this
    | none =>
      simp only
      rw [ih]
      constructor
      · rintro ⟨i, hi, hmin⟩
        refine ⟨i + 1, by simpa using hi, ?_⟩
        intro j hj
        cases j with
        | zero => simpa using hm
        | succ j' =>
          have := hmin j' (by omega)
          simpa using this
      · rintro ⟨i, hi, hmin⟩
        cases i with
        | zero => simp only [List.drop_zero] at hi; rw [hm] at hi; cases hi
        | succ i' =>
          refine ⟨i', by simpa using hi, ?_⟩
          intro j hj
          have := hmin (j + 1) (by omega)
          simpa using this

theorem findStartxref_none_iff (l : List Nat) :
    findStartxref l = none ↔ ∀ i, startxrefMatchAt (l.drop i) = none := by
  induction l with
  | nil =>
    simp only [findStartxref, List.drop_nil]
    constructor
    · intro _ i
      simp [startxrefMatchAt, startxrefToken]
    · intro _; trivial
  | cons b rest ih =>
    rw [findStartxref]
    cases hm : startxrefMatchAt (b :: rest) with
    | some w =>
      simp only
      constructor
      · intro h; cases h
      · intro h
        have := h 0
        simp only [List.drop_zero] at this
        rw [hm] at this
        cases this
    | none =>
      simp only
      rw [ih]
      constructor
      · intro h i
        cases i with
        | zero => simpa using hm
        | succ i' => simpa using h i'
      · intro h i
        have := h (i + 1)
        simpa using this

theorem findLastXRefOffset_eq (file : List Nat) :
    findLastXRefOffset file =
      match findStartxref (file.drop (file.length - 1024)) with
      | some v => .ok v
      | none => .error "startxref not found in last 1024 bytes" := rfl

/-- C3 (amended): `findLastXRefOffset` succeeds with the value of the FIRST
(leftmost) occurrence of `startxref` followed by an optional whitespace
run and a decimal integer in the trailing 1 KiB window, and fails exactly
when no position of the window matches. -/
theorem findLastXRefOffset_first_match (file : List Nat) :
    (∀ v, findLastXRefOffset file = .ok v →
        ∃ i, startxrefMatchAt ((file.drop (file.length - 1024)).drop i) = some v ∧
          ∀ j, j < i →
            startxrefMatchAt ((file.drop (file.length - 1024)).drop j) = none) ∧
      (findLastXRefOffset file = .error "startxref not found in last 1024 bytes" ↔
        ∀ i, startxrefMatchAt ((file.drop (file.length - 1024)).drop i) = none) := by
  constructor
  · intro v hv
    rw [findLastXRefOffset_eq] at hv
    cases hm : findStartxref (file.drop (file.length - 1024)) with
    | some w =>
      rw [hm] at hv
      cases hv
      exact (findStartxref_some_iff _ _).mp hm
    | none => rw [hm] at hv; cases hv
  · rw [findLastXRefOffset_eq]
    cases hm : findStartxref (file.drop (file.length - 1024)) with
    | some w =>
      simp only
      constructor
      · intro h; cases h
      · intro h
        rw [(findStartxref_none_iff _).mpr h] at hm
        cases hm
    | none =>
      simp only
      rw [← findStartxref_none_iff]
      constructor
      · intro _; exact hm
      · intro _; trivial

/-- C3 (counterexample): on a window holding two `startxref` occurrences
(values 5 then 7), the code returns the value after the FIRST occurrence
(5), not the value after the LAST occurrence (7) as the claim states. -/
theorem findLastXRefOffset_counterexample :
    findLastXRefOffset twoStartxrefInput = .ok 5 ∧
      specLastStartxref
        (twoStartxrefInput.drop (twoStartxrefInput.length - 1024)) = some 7 ∧
      (5 : Nat) ≠ 7 := by
  refine ⟨by rfl, by rfl, by decide⟩

/-- C3 (witness): the first-match characterization applied to the concrete
two-occurrence window. -/
theorem findLastXRefOffset_first_match_witness :
    ∃ i, startxrefMatchAt
        ((twoStartxrefInput.drop (twoStartxrefInput.length - 1024)).drop i) = some 5 ∧
      ∀ j, j < i →
        startxrefMatchAt
          ((twoStartxrefInput.drop (twoStartxrefInput.length - 1024)).drop j) = none :=
  (findLastXRefOffset_first_match twoStartxrefInput).1 5 (by rfl)

/-- The whole-document text built at the head of `processTextChunks`
(internal/document/pages.go): each page text followed by a newline byte. -/
def documentText (pageTexts : List (List Nat)) : List Nat :=
  (pageTexts.map (fun t => t ++ [10])).flatten

/-- Go `strings.Split(text, "\n")`: split at every newline byte, keeping
empty fields. -/
def splitLines : List Nat → List (List Nat)
  | [] => [[]]
  | b :: rest =>
    if b = 10 then [] :: splitLines rest
    else
      match splitLines rest with
      | [] => [[b]]
      | l :: ls => (b :: l) :: ls

/-- The chunking loop of `processTextChunks`: one iteration per line; when
`currentChunk.Len() + len(line) + 1 > 1000` a nonempty current chunk is
flushed; a nonempty current chunk receives a newline separator before the
line is appended; a nonempty final chunk is flushed at the end. -/
def chunkLoop : List (List Nat) → List Nat → List (List Nat) → List (List Nat)
  | [], cur, chunks => if cur.length > 0 then chunks ++ [cur] else chunks
  | line :: restLines, cur, chunks =>
    if cur.length + line.length + 1 > 1000 then
      if cur.length > 0 then chunkLoop restLines line (chunks ++ [cur])
      else chunkLoop restLines line chunks
    else
      if cur.length > 0 then chunkLoop restLines (cur ++ [10] ++ line) chunks
      else chunkLoop restLines line chunks

/-- Embeds `processTextChunks` (internal/document/pages.go), parameterised
by the page texts of the document. -/
def processTextChunks (pageTexts : List (List Nat)) : List (List Nat) :=
  chunkLoop (splitLines (documentText pageTexts)) [] []

/-- Length of the longest line. -/
def maxLineLength (lines : List (List Nat)) : Nat :=
  (lines.map List.length).foldr max 0

theorem le_maxLineLength (lines : List (List Nat)) (l : List Nat) (h : l ∈ lines) :
    l.length ≤ maxLineLength lines := by
  induction lines with
  | nil => cases h
  | cons x xs ih =>
    rcases List.mem_cons.mp h with h1 | h2
    · subst h1
      simp only [maxLineLength, List.map_cons, List.foldr_cons]
      exact Nat.le_max_left _ _
    · calc l.length ≤ maxLineLength xs := ih h2
        _ ≤ maxLineLength (x :: xs) := by
          simp only [maxLineLength, List.map_cons, List.foldr_cons]
          exact Nat.le_max_right _ _

theorem chunkLoop_bound (M : Nat) :
    ∀ (lines : List (List Nat)) (cur : List Nat) (chunks : List (List Nat)),
      (∀ l ∈ lines, l.length ≤ M) →
      cur.length ≤ max 1000 M →
      (∀ c ∈ chunks, c.length ≤ max 1000 M) →
      ∀ c ∈ chunkLoop lines cur chunks, c.length ≤ max 1000 M := by
  intro lines
  induction lines with
  | nil =>
    intro cur chunks _ hcur hchunks c hc
    rw [chunkLoop] at hc
    by_cases h0 : cur.length > 0
    · simp only [h0, if_true] at hc
      rcases List.mem_append.mp hc with h | h
      · exact hchunks c h
      · rcases List.mem_singleton.mp h with rfl
        exact hcur
    · simp only [h0, if_false] at hc
      exact hchunks c hc
  | cons line restLines ih =>
    intro cur chunks hlines hcur hchunks c hc
    have hline : line.length ≤ M := hlines line (List.mem_cons_self _ _)
    have hrest : ∀ l ∈ restLines, l.length ≤ M := fun l hl =>
      hlines l (List.mem_cons_of_mem _ hl)
    have hlineM : line.length ≤ max 1000 M := le_trans hline (Nat.le_max_right _ _)
    rw [chunkLoop] at hc
    by_cases hover : cur.length + line.length + 1 > 1000
    · simp only [hover, if_true] at hc
      by_cases h0 : cur.length > 0
      · simp only [h0, if_true] at hc
        refine ih line (chunks ++ [cur]) hrest hlineM ?_ c hc
        intro d hd
        rcases List.mem_append.mp hd with h | h
        · exact hchunks d h
        · rcases List.mem_singleton.mp h with rfl
          exact hcur
      · simp only [h0, if_false] at hc
        exact ih line chunks hrest hlineM hchunks c hc
    · simp only [hover, if_false] at hc
      by_cases h0 : cur.length > 0
      · simp only [h0, if_true] at hc
        refine ih (cur ++ [10] ++ line) chunks hrest ?_ hchunks c hc
        simp only [List.length_append, List.length_cons, List.length_nil]
        omega
      · simp only [h0, if_false] at hc
        exact ih line chunks hrest hlineM hchunks c hc

theorem processTextChunks_bound (pageTexts : List (List Nat)) (c : List Nat)
    (hc : c ∈ processTextChunks pageTexts) :
    c.length ≤ max 1000 (maxLineLength (splitLines (documentText pageTexts))) := by
  refine chunkLoop_bound _ (splitLines (documentText pageTexts)) [] [] ?_ ?_ ?_ c hc
  · intro l hl
    exact le_maxLineLength _ l hl
  · simp
  · intro d hd
    cases hd

/-- Each line followed by one newline byte: the padded join relating the
chunker's line list back to byte positions of the document text (the same
shape as `documentText`, applied to lines instead of page texts). -/
def joinN (lines : List (List Nat)) : List Nat :=
  (lines.map (fun l => l ++ [10])).flatten

theorem joinN_cons (l : List Nat) (ls : List (List Nat)) :
    joinN (l :: ls) = l ++ [10] ++ joinN ls := by
  simp [joinN, List.append_assoc]

theorem splitLines_ne_nil (t : List Nat) : splitLines t ≠ [] := by
  cases t with
  | nil => simp [splitLines]
  | cons b rest =>
    rw [splitLines]
    by_cases hb : b = 10
    · simp [hb]
    · simp only [hb, if_false]
      cases splitLines rest <;> simp

theorem joinN_splitLines (t : List Nat) : joinN (splitLines t) = t ++ [10] := by
  induction t with
  | nil => rfl
  | cons b rest ih =>
    by_cases hb : b = 10
    · subst hb
      have h1 : splitLines (10 :: rest) = [] :: splitLines rest := by
        rw [splitLines]; simp
      rw [h1, joinN_cons, ih]
      simp
    · obtain ⟨l, ls, hls⟩ : ∃ l ls, splitLines rest = l :: ls := by
        cases h : splitLines rest with
        | nil => exact absurd h (splitLines_ne_nil rest)
        | cons l ls => exact ⟨l, ls, rfl⟩
      have h1 : splitLines (b :: rest) = (b :: l) :: ls := by
        rw [splitLines]
        simp only [hb, if_false, hls]
      rw [hls, joinN_cons] at ih
      rw [h1, joinN_cons, List.cons_append, List.cons_append, ih]
      simp

theorem chunkLoop_infix :
    ∀ (rest : List (List Nat)) (cur : List Nat) (chunks : List (List Nat)) (c : List Nat),
      c ∈ chunkLoop rest cur chunks →
      c ∈ chunks ∨ c <:+: (cur ++ [10] ++ joinN rest) := by
  intro rest
  induction rest with
  | nil =>
    intro cur chunks c hc
    rw [chunkLoop] at hc
    by_cases h0 : cur.length > 0
    · simp only [h0, if_true] at hc
      rcases List.mem_append.mp hc with h | h
      · exact Or.inl h
      · right
        rcases List.mem_singleton.mp h with rfl
        exact ((List.prefix_append c [10]).trans
          (List.prefix_append (c ++ [10]) (joinN []))).isInfix
    · simp only [h0, if_false] at hc
      exact Or.inl hc
  | cons line rest2 ih =>
    intro cur chunks c hc
    rw [chunkLoop] at hc
    have hsuffix : joinN (line :: rest2) <:+: (cur ++ [10] ++ joinN (line :: rest2)) :=
      (List.suffix_append (cur ++ [10]) (joinN (line :: rest2))).isInfix
    by_cases hover : cur.length + line.length + 1 > 1000
    · simp only [hover, if_true] at hc
      by_cases h0 : cur.length > 0
      · simp only [h0, if_true] at hc
        rcases ih line (chunks ++ [cur]) c hc with h | h
        · rcases List.mem_append.mp h with h | h
          · exact Or.inl h
          · right
            rcases List.mem_singleton.mp h with rfl
            exact ((List.prefix_append c [10]).trans
              (List.prefix_append (c ++ [10]) (joinN (line :: rest2)))).isInfix
        · right
          rw [← joinN_cons] at h
          exact h.trans hsuffix
      · simp only [h0, if_false] at hc
        rcases ih line chunks c hc with h | h
        · exact Or.inl h
        · right
          rw [← joinN_cons] at h
          exact h.trans hsuffix
    · simp only [hover, if_false] at hc
      by_cases h0 : cur.length > 0
      · simp only [h0, if_true] at hc
        rcases ih (cur ++ [10] ++ line) chunks c hc with h | h
        · exact Or.inl h
        · right
          rw [joinN_cons]
          simpa [List.append_assoc] using h
      · simp only [h0, if_false] at hc
        rcases ih line chunks c hc with h | h
        · exact Or.inl h
        · right
          rw [← joinN_cons] at h
          exact h.trans hsuffix

theorem chunkLoop_infix_start (rest : List (List Nat)) (chunks : List (List Nat))
    (c : List Nat) (hc : c ∈ chunkLoop rest [] chunks) :
    c ∈ chunks ∨ c <:+: joinN rest := by
  cases rest with
  | nil =>
    rw [chunkLoop] at hc
    simp only [List.length_nil, gt_iff_lt, Nat.lt_irrefl, if_false] at hc
    exact Or.inl hc
  | cons line rest2 =>
    rw [chunkLoop] at hc
    have hc2 : c ∈ chunkLoop rest2 line chunks := by
      by_cases hover : ([] : List Nat).length + line.length + 1 > 1000
      · simpa [hover] using hc
      · simpa [hover] using hc
    rcases chunkLoop_infix rest2 line chunks c hc2 with h | h
    · exact Or.inl h
    · right
      rw [joinN_cons]
      exact h

/-- C7 (amended): every chunk produced by the text chunker has byte length
at most `max 1000 L`, where `L` is the longest line of the concatenated
document text (so the claim's 1000-byte bound holds except when a single
line alone exceeds it, in which case that line is emitted unsplit), and
every chunk is a contiguous substring of the document text padded with one
final newline — chunks break only at newline boundaries.  The chunks need
not partition the text: newline-only content (empty pages, trailing empty
lines) is covered by no chunk. -/
theorem processTextChunks_bound_and_boundaries (pageTexts : List (List Nat))
    (c : List Nat) (hc : c ∈ processTextChunks pageTexts) :
    c.length ≤ max 1000 (maxLineLength (splitLines (documentText pageTexts))) ∧
      c <:+: (documentText pageTexts ++ [10]) := by
  refine ⟨processTextChunks_bound pageTexts c hc, ?_⟩
  rcases chunkLoop_infix_start (splitLines (documentText pageTexts)) [] c hc with h | h
  · cases h
  · rw [joinN_splitLines] at h
    exact h

/-- C7 (witness): the amended statement at the concrete one-page document
whose text is the single byte 97, with the membership hypothesis
discharged by evaluation. -/
theorem processTextChunks_bound_and_boundaries_witness :
    ([97, 10] : List Nat).length ≤
        max 1000 (maxLineLength (splitLines (documentText [[97]]))) ∧
      ([97, 10] : List Nat) <:+: (documentText [[97]] ++ [10]) :=
  processTextChunks_bound_and_boundaries [[97]] [97, 10] (by decide)

theorem splitLines_append_newline (l : List Nat) (h : ∀ b ∈ l, b ≠ 10) :
    splitLines (l ++ [10]) = [l, []] := by
  induction l with
  | nil => rfl
  | cons b rest ih =>
    have hb : b ≠ 10 := h b (List.mem_cons_self _ _)
    have hrest : ∀ x ∈ rest, x ≠ 10 := fun x hx => h x (List.mem_cons_of_mem _ hx)
    rw [List.cons_append, splitLines]
    simp only [hb, if_false]
    rw [ih hrest]

theorem processTextChunks_longline :
    processTextChunks [List.replicate 1001 97] = [List.replicate 1001 97] := by
  have hdoc : documentText [List.replicate 1001 97] = List.replicate 1001 97 ++ [10] := by
    simp [documentText]
  have hsp : splitLines (List.replicate 1001 97 ++ [10]) = [List.replicate 1001 97, []] :=
    splitLines_append_newline _ (by
      intro b hb
      rw [List.eq_of_mem_replicate hb]
      decide)
  rw [processTextChunks, hdoc, hsp]
  rw [chunkLoop]
  rw [if_pos (by simp), if_neg (by simp)]
  rw [chunkLoop]
  rw [if_pos (by simp), if_pos (by simp)]
  rw [chunkLoop]
  rw [if_neg (by simp)]
  simp

/-- C7 (counterexample): both halves of the claim fail.  The length bound:
a document whose single page text is one line of 1001 bytes yields that
line unsplit as a chunk of length 1001 > 1000.  The prefix-greedy
partition: a document of one empty page has nonempty concatenated text
(the single newline byte) yet NO chunks at all, so the chunks do not
partition the concatenated document text. -/
theorem processTextChunks_counterexample :
    (∃ c, c ∈ processTextChunks [List.replicate 1001 97] ∧ 1000 < c.length) ∧
      processTextChunks [[]] = [] ∧ documentText [[]] = [10] := by
  refine ⟨⟨List.replicate 1001 97, ?_, by simp⟩, by rfl, by rfl⟩
  rw [processTextChunks_longline]
  exact List.mem_singleton.mpr rfl

/-- Digit class of Go regexp `\\d`, over characters. -/
def charIsDigit (c : Char) : Bool := '0' ≤ c && c ≤ '9'

/-- Whitespace class of Go regexp `\\s`, over characters. -/
def charIsSpace (c : Char) : Bool :=
  c = ' ' || c = '\t' || c = '\n' || c = '\x0b' || c = '\x0c' || c = '\r'

/-- Decimal value of a digit character string, as `strconv.Atoi` computes
it (overflow is out of scope for the inputs considered). -/
def digitsVal (ds : List Char) : Nat := ds.foldl (fun acc c => acc * 10 + (c.toNat - 48)) 0

/-- Whether the Go regexp `(\\d+)\\s+\\d+\\s+R` of `refPattern`
(internal/utils/parsing.go) matches at the head of `l`; returns the value
of the first captured digit group.  The adjacent character classes are
disjoint, so the greedy semantics reduce to maximal-munch runs. -/
def refMatchAt (l : List Char) : Option Nat :=
  let d1 := l.takeWhile charIsDigit
  if d1 = [] then none else
  let r1 := l.drop d1.length
  let s1 := r1.takeWhile charIsSpace
  if s1 = [] then none else
  let r2 := r1.drop s1.length
  let d2 := r2.takeWhile charIsDigit
  if d2 = [] then none else
  let r3 := r2.drop d2.length
  let s2 := r3.takeWhile charIsSpace
  if s2 = [] then none else
  match r3.drop s2.length with
  | 'R' :: _ => some (digitsVal d1)
  | _ => none

/-- Leftmost match of `refPattern` in `l`, as `FindStringSubmatch` computes
it. -/
def findRefMatch : List Char → Option Nat
  | [] => none
  | c :: rest =>
    match refMatchAt (c :: rest) with
    | some v => some v
    | none => findRefMatch rest

/-- Embeds `ExtractReference` (internal/utils/parsing.go): the object
number of the leftmost `N G R` reference token in the string, or an error
when the pattern does not match. -/
def ExtractReference (ref : List Char) : Except String Nat :=
  match findRefMatch ref with
  | some n => .ok n
  | none => .error "invalid reference format"

/-- The fields of the Go `PDFObject` (internal/document/objects.go) used
by the `/Contents` assembly: the stream flag and the decoded stream
bytes. -/
structure PDFObject where
  isStream : Bool
  stream : List Nat
deriving DecidableEq

/-- Embeds the `/Contents`-array branch of `processPageTree`
(internal/document/pages.go, lines 132-149): for each reference in array
order, an invalid reference is skipped with a warning, a resolvable
stream object contributes its stream bytes followed by a newline.  The
Go object map is modelled as an association list. -/
def contentsFromArray (objects : List (Nat × PDFObject)) :
    List (List Char) → List Nat
  | [] => []
  | ref :: rest =>
    match ExtractReference ref with
    | .error _ => contentsFromArray objects rest
    | .ok n =>
      match objects.lookup n with
      | some obj =>
        if obj.isStream then obj.stream ++ [10] ++ contentsFromArray objects rest
        else contentsFromArray objects rest
      | none => contentsFromArray objects rest

/-- The streams that resolve from the reference array, in array order
(derived from the same resolution steps as `contentsFromArray`). -/
def resolvedStreams (objects : List (Nat × PDFObject)) :
    List (List Char) → List (List Nat)
  | [] => []
  | ref :: rest =>
    match ExtractReference ref with
    | .error _ => resolvedStreams objects rest
    | .ok n =>
      match objects.lookup n with
      | some obj =>
        if obj.isStream then obj.stream :: resolvedStreams objects rest
        else resolvedStreams objects rest
      | none => resolvedStreams objects rest

/-- Spec-side reference (the claim's wording): concatenation with a single
newline separator BETWEEN consecutive streams and none after the last. -/
def specJoinNewlineSeparated : List (List Nat) → List Nat
  | [] => []
  | [s] => s
  | s :: rest => s ++ [10] ++ specJoinNewlineSeparated rest

theorem contentsFromArray_flatten (objects : List (Nat × PDFObject))
    (refs : List (List Char)) :
    contentsFromArray objects refs =
      ((resolvedStreams objects refs).map (fun s => s ++ [10])).flatten := by
  induction refs with
  | nil => rfl
  | cons ref rest ih =>
    rw [contentsFromArray, resolvedStreams]
    cases ExtractReference ref with
    | error e => simpa using ih
    | ok n =>
      simp only
      cases objects.lookup n with
      | none => simpa using ih
      | some obj =>
        simp only
        by_cases hs : obj.isStream
        · simp [hs, ih, List.append_assoc]
        · simp only [hs, if_false]
          exact ih

theorem flatten_map_append_newline (l : List (List Nat)) :
    ((l.map (fun s => s ++ [10])).flatten) =
      specJoinNewlineSeparated l ++ (if l = [] then [] else [10]) := by
  induction l with
  | nil => rfl
  | cons s rest ih =>
    cases rest with
    | nil => simp [specJoinNewlineSeparated]
    | cons t rest2 =>
      rw [List.map_cons, List.flatten_cons, ih]
      simp only [specJoinNewlineSeparated]
      simp [List.append_assoc]

/-- C5 (amended): the page content bytes assembled from a `/Contents`
array are the resolvable streams concatenated in array order with a
newline after EVERY stream — equivalently, the claim's
between-streams-only concatenation followed by one trailing newline
whenever at least one stream resolves. -/
theorem contentsFromArray_trailing_newline (objects : List (Nat × PDFObject))
    (refs : List (List Char)) :
    contentsFromArray objects refs =
      specJoinNewlineSeparated (resolvedStreams objects refs) ++
        (if resolvedStreams objects refs = [] then [] else [10]) := by
  rw [contentsFromArray_flatten, flatten_map_append_newline]

/-- C5 (counterexample): with a single resolvable stream `AB`, the code
stores `AB\n` (trailing separator present), while the claim's
no-separator-after-last assembly yields `AB`. -/
theorem contentsFromArray_counterexample :
    contentsFromArray [(2, ⟨true, [65, 66]⟩)] ["2 0 R".toList] = [65, 66, 10] ∧
      specJoinNewlineSeparated
        (resolvedStreams [(2, ⟨true, [65, 66]⟩)] ["2 0 R".toList]) = [65, 66] ∧
      ([65, 66, 10] : List Nat) ≠ [65, 66] := by
  refine ⟨by rfl, by rfl, by decide⟩

/-- The fields of the Go `PDFFont` (internal/document/objects.go) used
here: the font name and the code-to-unicode map, modelled as an
association list. -/
structure PDFFont where
  name : List Char
  codeToUnicode : List (Nat × Char)
deriving DecidableEq

/-- Embeds `processFonts` (internal/document/pages.go, lines 222-230), the
font-processing step the parse pipeline calls: it installs the single
entry `/DefaultFont` whose `CodeToUnicode` map is freshly created by
`make(map[int]rune)` and never populated.  The Go map assignment is
modelled by prepending to the association list (the new entry wins). -/
def processFonts (fonts : List (List Char × PDFFont)) : List (List Char × PDFFont) :=
  ("/DefaultFont".toList, ⟨"DefaultFont".toList, []⟩) :: fonts

/-- Embeds the font selection of the `Tj`/`TJ` handlers in
`extractTextWithPositioning` (internal/text): the content-stream font
name is prefixed with `/`; a missing entry falls back to `/DefaultFont`;
if that is also missing, the Go zero-value font (empty map) is used. -/
def selectFont (fonts : List (List Char × PDFFont)) (name : List Char) : PDFFont :=
  match fonts.lookup ('/' :: name) with
  | some f => f
  | none =>
    match fonts.lookup "/DefaultFont".toList with
    | some f => f
    | none => ⟨[], []⟩

/-- The per-byte mapping of `decodeText` (internal/text) outside escape
sequences: a code present in the font map is translated; a missing code
falls back to the raw byte as a rune. -/
def decodeByte (font : PDFFont) (b : Nat) : Char :=
  match font.codeToUnicode.lookup b with
  | some ch => ch
  | none => Char.ofNat b

/-- C6 (counterexample): after the pipeline's font processing the
`/DefaultFont` entry exists but its code-to-unicode map is EMPTY: code 65
is not mapped at all, in particular not to `A` as the full 8-bit identity
of the claim requires. -/
theorem processFonts_empty_map_counterexample :
    (processFonts []).lookup "/DefaultFont".toList =
        some ⟨"DefaultFont".toList, []⟩ ∧
      (PDFFont.mk "DefaultFont".toList []).codeToUnicode.lookup 65 = none ∧
      (none : Option Char) ≠ some 'A' := by
  refine ⟨by rfl, by rfl, by decide⟩

/-- C6 (amended): after font processing the table holds a `/DefaultFont`
entry whose code-to-unicode map is empty; decoding any byte through that
empty map falls back to the identity `rune(b)`; and the font selected
for a name absent from the table is exactly this `/DefaultFont` entry. -/
theorem processFonts_defaultFont (fonts : List (List Char × PDFFont))
    (name : List Char) (b : Nat) :
    (processFonts fonts).lookup "/DefaultFont".toList =
        some ⟨"DefaultFont".toList, []⟩ ∧
      ((processFonts fonts).lookup ('/' :: name) = none →
        selectFont (processFonts fonts) name = ⟨"DefaultFont".toList, []⟩) ∧
      decodeByte ⟨"DefaultFont".toList, []⟩ b = Char.ofNat b := by
  refine ⟨?_, ?_, rfl⟩
  · simp [processFonts, List.lookup]
  · intro hmiss
    rw [selectFont, hmiss]
    simp [processFonts, List.lookup]

/-- C6 (witness): the amended statement at the concrete empty base table,
the unknown font name `F9` and byte 200, with the missing-name hypothesis
discharged by evaluation. -/
theorem processFonts_defaultFont_witness :
    (processFonts []).lookup "/DefaultFont".toList =
        some ⟨"DefaultFont".toList, []⟩ ∧
      selectFont (processFonts []) "F9".toList = ⟨"DefaultFont".toList, []⟩ ∧
      decodeByte ⟨"DefaultFont".toList, []⟩ 200 = Char.ofNat 200 :=
  ⟨(processFonts_defaultFont [] "F9".toList 200).1,
   (processFonts_defaultFont [] "F9".toList 200).2.1 (by rfl),
   (processFonts_defaultFont [] "F9".toList 200).2.2⟩

/-- Byte sequence of a Go string literal. -/
def strBytes (s : String) : List Nat := s.toList.map Char.toNat

/-- First index at which `pat` occurs as a contiguous run in `l`
(Go `bytes.Index`); `none` models Go's -1, so `bytes.Contains` is
`isSome`. -/
def bytesIndex (pat : List Nat) : List Nat → Option Nat
  | [] => if pat = [] then some 0 else none
  | b :: rest =>
    if pat.isPrefixOf (b :: rest) then some 0
    else (bytesIndex pat rest).map (· + 1)

/-- The tail of the stream detection (lines 188-192 of
internal/document/objects.go): locate `endstream` and produce the
interval when it is nonempty. -/
def finishStream (content : List Nat) (streamStart : Nat) :
    Option (Option (List Nat)) :=
  match bytesIndex (strBytes "endstream") content with
  | none => some none
  | some streamEnd =>
    if streamStart < streamEnd then
      some (some ((content.take streamEnd).drop streamStart))
    else some none

/-- Embeds the stream-boundary detection of `loadObjects`
(internal/document/objects.go, lines 179-192).  The outer `none` marks a
Go runtime panic: an index access beyond the bounds of `content`
(modelled with `List.get?`); `some none` means no stream is stored;
`some (some s)` is the stored stream slice. -/
def detectStream (content : List Nat) : Option (Option (List Nat)) :=
  if (bytesIndex (strBytes "stream") content).isSome &&
      (bytesIndex (strBytes "endstream") content).isSome then
    match bytesIndex (strBytes "stream") content with
    | none => some none
    | some idx =>
      match content.get? (idx + 6) with
      | none => none
      | some b =>
        if b = 13 then
          match content.get? (idx + 6 + 1) with
          | none => none
          | some b2 =>
            finishStream content (if b2 = 10 then idx + 6 + 2 else idx + 6)
        else
          finishStream content (if b = 10 then idx + 6 + 1 else idx + 6)
  else some none

/-- The `endobj` trim of `loadObjects` (lines 157-159): the accumulated
object content is cut at the first occurrence of `endobj`. -/
def trimEndobj (content : List Nat) : List Nat :=
  match bytesIndex (strBytes "endobj") content with
  | none => content
  | some idx => content.take idx

/-- C10: the claim that the stream-boundary byte accesses always stay in
bounds is the intended behaviour, but the code violates it: an object
whose accumulated body line is `endstreamendobj` is trimmed to the body
`endstream`, whose first `stream` occurrence is the tail of `endstream`
at the very end; the access `content[streamStart]` with `streamStart = 9 =
len(content)` is out of range — a Go runtime panic. -/
theorem loadObjects_stream_detection_panics :
    trimEndobj (strBytes "endstreamendobj\n") = strBytes "endstream" ∧
      detectStream (strBytes "endstream") = none := by
  refine ⟨by rfl, by rfl⟩

/-- DecodeParms dictionaries as Go `ParseDictionary` produces them for the
stream pipeline: string keys without the leading slash, string values. -/
abbrev Parms := List (String × List Char)

/-- Go `strconv.Atoi`: optional sign, then at least one digit covering the
whole string; anything else is a syntax error (overflow is out of scope
for the inputs considered). -/
def goAtoiE (s : List Char) : Except String Int :=
  match s with
  | [] => .error "invalid syntax"
  | '+' :: rest =>
    if rest ≠ [] ∧ rest.all charIsDigit then .ok (digitsVal rest) else .error "invalid syntax"
  | '-' :: rest =>
    if rest ≠ [] ∧ rest.all charIsDigit then .ok (-(digitsVal rest : Int))
    else .error "invalid syntax"
  | _ => if s.all charIsDigit then .ok (digitsVal s) else .error "invalid syntax"

/-- Go `v, _ := strconv.Atoi(s)`: the value, or 0 when `Atoi` errors. -/
def goAtoiOrZero (s : List Char) : Int :=
  match goAtoiE s with
  | .ok v => v
  | .error _ => 0

/-- One row of `applyTIFFPredictor`: the first `colors` bytes are copied,
each later byte adds the decoded byte one pixel to the left, modulo 256. -/
def tiffDecodeRow (colors : Nat) (rowData : List Nat) : List Nat :=
  (List.range rowData.length).foldl (fun acc i =>
    acc ++ [if i < colors then rowData.getD i 0
            else (rowData.getD i 0 + acc.getD (i - colors) 0) % 256]) []

/-- The row loop of `applyTIFFPredictor`: exactly `rows = len(data) /
rowLength` full rows are processed (a trailing remainder is dropped, as
the Go `make(rows*rowLength)` result does). -/
def tiffRowsGo (colors rowLength : Nat) : Nat → List Nat → List Nat
  | 0, _ => []
  | rows + 1, data =>
    tiffDecodeRow colors (data.take rowLength) ++
      tiffRowsGo colors rowLength rows (data.drop rowLength)

/-- Embeds `applyTIFFPredictor` (internal/content, predictor file):
non-8-bit depths pass through silently.  Out of the modelled scope (and
unreachable from well-formed DecodeParms): Go divides by zero when
`rowLength = 0` and indexes out of range when `colors > rowLength`. -/
def applyTIFFPredictor (data : List Nat)
    (columns colors bitsPerComponent rowLength : Nat) : Except String (List Nat) :=
  if bitsPerComponent ≠ 8 then .ok data
  else .ok (tiffRowsGo colors rowLength (data.length / rowLength) data)

/-- Embeds `applyPredictor` (internal/content, predictor file): `/Columns`,
`/Colors`, `/BitsPerComponent` default to 1, 1, 8, with an error return
when a present value does not parse; PNG predictors 10-15 and TIFF
predictor 2 dispatch to their decoders, anything else passes the data
through.  The division is Go `int` division; parameters are nonnegative
in the modelled scope, clamped by `toNat` at the dispatch. -/
def applyPredictor (data : List Nat) (predictor : Int) (decodeParms : Parms) :
    Except String (List Nat) :=
  match (match decodeParms.lookup "Columns" with
         | none => Except.ok (1 : Int)
         | some s => goAtoiE s) with
  | .error _ => .error "invalid Columns value"
  | .ok columns =>
  match (match decodeParms.lookup "Colors" with
         | none => Except.ok (1 : Int)
         | some s => goAtoiE s) with
  | .error _ => .error "invalid Colors value"
  | .ok colors =>
  match (match decodeParms.lookup "BitsPerComponent" with
         | none => Except.ok (8 : Int)
         | some s => goAtoiE s) with
  | .error _ => .error "invalid BitsPerComponent value"
  | .ok bitsPerComponent =>
    let bytesPerPixel := (colors * bitsPerComponent + 7) / 8
    let rowLength := (columns * colors * bitsPerComponent + 7) / 8
    if 10 ≤ predictor ∧ predictor ≤ 15 then
      applyPNGPredictor data columns.toNat bytesPerPixel.toNat rowLength.toNat
    else if predictor = 2 then
      applyTIFFPredictor data columns.toNat colors.toNat bitsPerComponent.toNat
        rowLength.toNat
    else .ok data

/-- The four bytes of a 32-bit group, big endian (Go `byte(v>>24)` ...). -/
def a85Group (v : Nat) : List Nat :=
  [v / 2 ^ 24 % 256, v / 2 ^ 16 % 256, v / 2 ^ 8 % 256, v % 256]

/-- The flush padding of Go `ascii85.Decode`: missing digits are assumed
to be 84 (`u`), with `uint32` wraparound. -/
def a85Pad (v nb : Nat) : Nat :=
  (List.range (5 - nb)).foldl (fun w _ => (w * 85 + 84) % 2 ^ 32) v

/-- The decode loop of Go `encoding/ascii85` as driven by `NewDecoder` and
`io.ReadAll` (so with a final flush at end of input): bytes up to space
are skipped, `z` outside a group emits four zero bytes, digits `!`..`u`
accumulate base-85 into a wrapping `uint32`, full groups emit four bytes
big endian, anything else is corrupt input; at flush a single leftover
digit is corrupt, otherwise `nb` leftover digits emit `nb - 1` bytes. -/
def a85Decode : List Nat → Nat → Nat → List Nat → Except String (List Nat)
  | [], v, nb, acc =>
    if nb = 0 then .ok acc
    else if nb = 1 then .error "ascii85 decoding failed: illegal ascii85 data"
    else .ok (acc ++ (a85Group (a85Pad v nb)).take (nb - 1))
  | b :: rest, v, nb, acc =>
    if b ≤ 32 then a85Decode rest v nb acc
    else if b = 122 ∧ nb = 0 then a85Decode rest 0 0 (acc ++ [0, 0, 0, 0])
    else if 33 ≤ b ∧ b ≤ 117 then
      if nb + 1 = 5 then a85Decode rest 0 0 (acc ++ a85Group ((v * 85 + (b - 33)) % 2 ^ 32))
      else a85Decode rest ((v * 85 + (b - 33)) % 2 ^ 32) (nb + 1) acc
    else .error "ascii85 decoding failed: illegal ascii85 data"

/-- The `/ASCII85Decode` branch of `applySingleFilter`: the standard
library decoder over the whole stream. -/
def goAscii85Decode (stream : List Nat) : Except String (List Nat) :=
  a85Decode stream 0 0 []

/-- Go `strings.HasPrefix(s, "[")`. -/
def goHasPrefixLB (s : List Char) : Bool :=
  match s with
  | '[' :: _ => true
  | _ => false

/-- Go `strings.HasSuffix(s, "]")`. -/
def goHasSuffixRB (s : List Char) : Bool :=
  match s.getLast? with
  | some ']' => true
  | _ => false

/-- Embeds the loop of `ParseArray` (internal/utils/parsing.go): items are
split on whitespace outside `[` `]` nesting and `<<` `>>` dictionary
nesting; the two-character brackets consume two input characters.  The Go
`int` level counters may go negative on malformed input, hence `Int`. -/
def parseArrayLoop : List Char → Int → Int → List Char → List (List Char) → List (List Char)
  | [], _, _, cur, items =>
    if cur.length > 0 then items ++ [cur] else items
  | [c], nestedLevel, dictLevel, cur, items =>
    if c = '[' then items ++ [cur ++ [c]]
    else if c = ']' then items ++ [cur ++ [c]]
    else if (c = ' ' ∨ c = '\t' ∨ c = '\n' ∨ c = '\r') ∧ nestedLevel = 0 ∧ dictLevel = 0 then
      if cur.length > 0 then items ++ [cur] else items
    else items ++ [cur ++ [c]]
  | c :: c2 :: rest, nestedLevel, dictLevel, cur, items =>
    if c = '[' then
      parseArrayLoop (c2 :: rest) (nestedLevel + 1) dictLevel (cur ++ [c]) items
    else if c = ']' then
      parseArrayLoop (c2 :: rest) (nestedLevel - 1) dictLevel (cur ++ [c]) items
    else if c = '<' ∧ c2 = '<' then
      parseArrayLoop rest nestedLevel (dictLevel + 1) (cur ++ ['<', '<']) items
    else if c = '>' ∧ c2 = '>' then
      parseArrayLoop rest nestedLevel (dictLevel - 1) (cur ++ ['>', '>']) items
    else if (c = ' ' ∨ c = '\t' ∨ c = '\n' ∨ c = '\r') ∧ nestedLevel = 0 ∧ dictLevel = 0 then
      if cur.length > 0 then parseArrayLoop (c2 :: rest) nestedLevel dictLevel [] (items ++ [cur])
      else parseArrayLoop (c2 :: rest) nestedLevel dictLevel [] items
    else parseArrayLoop (c2 :: rest) nestedLevel dictLevel (cur ++ [c]) items

/-- Embeds `ParseArray` (internal/utils/parsing.go): `nil` unless the
string is bracketed; the loop runs on the bracket-stripped content. -/
def ParseArray (arrayStr : List Char) : List (List Char) :=
  if goHasPrefixLB arrayStr && goHasSuffixRB arrayStr then
    parseArrayLoop ((arrayStr.drop 1).dropLast) 0 0 [] []
  else []

/-- The per-index DecodeParms extraction of the filter-array branch of
`DecompressStream`: `decodeParms["Array"]`, when it is a bracketed array,
is split and item `i`, when it is a `<< >>` dictionary, is parsed with
`ParseDictionary` — the regex-based Go dictionary parser is passed in as
`parseDict` (in Go it can only return nil errors on flat input, so it is
modelled total).  Out of the modelled scope: Go slices `item[2:len-2]`
and panics when a `<<`-prefixed item is shorter than 4 bytes. -/
def filterParmsFor (parseDict : List Char → Parms) (decodeParms : Option Parms)
    (i : Nat) : Option Parms :=
  match decodeParms with
  | none => none
  | some parms =>
    match parms.lookup "Array" with
    | none => none
    | some parmsArrayStr =>
      if goHasPrefixLB parmsArrayStr then
        let parmsItems := ParseArray parmsArrayStr
        if i < parmsItems.length then
          let item := parmsItems.getD i []
          if item.take 2 = ['<', '<'] then
            some (parseDict (((item.drop 2).dropLast).dropLast))
          else some []
        else none
      else none

/-- Embeds `applySingleFilter` (internal/content, stream file).  zlib
inflation (`compress/zlib` + `io.ReadAll`) is not reimplemented: it is the
parameter `inflate` (its error string carries the Go wrapping); everything
else mirrors the Go switch: `/FlatDecode` inflates then runs the predictor
when `/Predictor` parses to a value above 1, `/ASCII85Decode` and
`/RunLengthDecode` decode, `/DCTDecode` and `/JPXDecode` pass through,
`/LZWDecode`, `/CCITTFaxDecode` and `/JBIG2Decode` are unsupported, and —
notably — any other name, including `/FlateDecode`, hits the default
unsupported-filter error. -/
def applySingleFilter (inflate : List Nat → Except String (List Nat))
    (stream : List Nat) (filterType : List Char) (decodeParms : Option Parms) :
    Except String (List Nat) :=
  if filterType = "/FlatDecode".toList then
    match inflate stream with
    | .error e => .error e
    | .ok decompressed =>
      match decodeParms with
      | none => .ok decompressed
      | some parms =>
        match parms.lookup "Predictor" with
        | none => .ok decompressed
        | some predictorStr =>
          if goAtoiOrZero predictorStr > 1 then
            applyPredictor decompressed (goAtoiOrZero predictorStr) parms
          else .ok decompressed
  else if filterType = "/ASCII85Decode".toList then goAscii85Decode stream
  else if filterType = "/LZWDecode".toList then
    .error "LZW decompression not implemented"
  else if filterType = "/RunLengthDecode".toList then decodeRunLength stream
  else if filterType = "/DCTDecode".toList then .ok stream
  else if filterType = "/JPXDecode".toList then .ok stream
  else if filterType = "/CCITTFaxDecode".toList then
    .error "CCITT fax decompression not implemented"
  else if filterType = "/JBIG2Decode".toList then
    .error "JBIG2 decompression not implemented"
  else .error ("unsupported filter type: " ++ String.mk filterType)

/-- The filter-array loop body of `DecompressStream`, processing the given
index sequence: each index selects a filter and its DecodeParms entry; an
error is wrapped as `filter %s error: %v` and aborts. -/
def decompressIndices (inflate : List Nat → Except String (List Nat))
    (parseDict : List Char → Parms) (filterArray : List (List Char))
    (decodeParms : Option Parms) : List Nat → List Nat → Except String (List Nat)
  | [], result => .ok result
  | i :: restIdx, result =>
    match applySingleFilter inflate result (filterArray.getD i [])
        (filterParmsFor parseDict decodeParms i) with
    | .error e =>
      .error ("filter " ++ String.mk (filterArray.getD i []) ++ " error: " ++ e)
    | .ok r => decompressIndices inflate parseDict filterArray decodeParms restIdx r

/-- Embeds `DecompressStream` (internal/content, stream file): a bracketed
filter spec is split with `ParseArray` and the filters are applied in
REVERSE array order — the Go loop runs `i` from `len(filterArray)-1` down
to 0 — each with its per-index DecodeParms; a non-array spec is a single
filter applied with the whole DecodeParms. -/
def DecompressStream (inflate : List Nat → Except String (List Nat))
    (parseDict : List Char → Parms) (stream : List Nat) (filterSpec : List Char)
    (decodeParms : Option Parms) : Except String (List Nat) :=
  if goHasPrefixLB filterSpec && goHasSuffixRB filterSpec then
    decompressIndices inflate parseDict (ParseArray filterSpec) decodeParms
      ((List.range (ParseArray filterSpec).length).reverse) stream
  else applySingleFilter inflate stream filterSpec decodeParms

/-- Spec-side reference (the claim's wording: "apply filters in the order
given, the first filter decodes the outermost layer"): identical to
`DecompressStream` except that the filter array is traversed in array
order. -/
def specDecompressInOrder (inflate : List Nat → Except String (List Nat))
    (parseDict : List Char → Parms) (stream : List Nat) (filterSpec : List Char)
    (decodeParms : Option Parms) : Except String (List Nat) :=
  if goHasPrefixLB filterSpec && goHasSuffixRB filterSpec then
    decompressIndices inflate parseDict (ParseArray filterSpec) decodeParms
      (List.range (ParseArray filterSpec).length) stream
  else applySingleFilter inflate stream filterSpec decodeParms

/-- Stand-in zlib inflater used to instantiate closed statements; the
filters exercised by them never reach the `/FlatDecode` branch. -/
def inflateStub : List Nat → Except String (List Nat) := fun _ => .error "zlib: unused"

/-- Stand-in `ParseDictionary` used to instantiate closed statements; the
DecodeParms exercised by them never reach a dictionary item. -/
def parseDictStub : List Char → Parms := fun _ => []

theorem decompressIndices_nil (inflate : List Nat → Except String (List Nat))
    (parseDict : List Char → Parms) (fa : List (List Char)) (parms : Option Parms)
    (r : List Nat) :
    decompressIndices inflate parseDict fa parms [] r = .ok r := rfl

theorem decompressIndices_cons (inflate : List Nat → Except String (List Nat))
    (parseDict : List Char → Parms) (fa : List (List Char)) (parms : Option Parms)
    (i : Nat) (idxs : List Nat) (r : List Nat) :
    decompressIndices inflate parseDict fa parms (i :: idxs) r =
      match applySingleFilter inflate r (fa.getD i [])
          (filterParmsFor parseDict parms i) with
      | .error e =>
        .error ("filter " ++ String.mk (fa.getD i []) ++ " error: " ++ e)
      | .ok r2 => decompressIndices inflate parseDict fa parms idxs r2 := rfl

/-- C1 (counterexample): on the filter array `[/ASCII85Decode
/RunLengthDecode]` and the raw bytes `[129, 33]`, the code run-length
decodes FIRST (the last filter of the array) and then ASCII85-decodes,
succeeding with 102 zero bytes; applying the filters in the order given,
as the claim states, fails at once because byte 129 is illegal ASCII85
input.  The two results differ, refuting the claim. -/
theorem DecompressStream_order_counterexample :
    DecompressStream inflateStub parseDictStub [129, 33]
        "[/ASCII85Decode /RunLengthDecode]".toList none =
      .ok (List.replicate 102 0) ∧
      specDecompressInOrder inflateStub parseDictStub [129, 33]
        "[/ASCII85Decode /RunLengthDecode]".toList none =
        .error "filter /ASCII85Decode error: ascii85 decoding failed: illegal ascii85 data" ∧
      (Except.ok (List.replicate 102 0) : Except String (List Nat)) ≠
        .error "filter /ASCII85Decode error: ascii85 decoding failed: illegal ascii85 data" := by
  have hrle : decodeRunLength [129, 33] = .ok (List.replicate 128 33) := by
    simp [decodeRunLength, Except.map]
  refine ⟨?_, ?_, by simp⟩
  · calc DecompressStream inflateStub parseDictStub [129, 33]
          "[/ASCII85Decode /RunLengthDecode]".toList none
        = decompressIndices inflateStub parseDictStub
            ["/ASCII85Decode".toList, "/RunLengthDecode".toList] none [1, 0]
            [129, 33] := rfl
      _ = decompressIndices inflateStub parseDictStub
            ["/ASCII85Decode".toList, "/RunLengthDecode".toList] none [0]
            (List.replicate 128 33) := by
          rw [decompressIndices_cons,
            show applySingleFilter inflateStub [129, 33]
                ((["/ASCII85Decode".toList, "/RunLengthDecode".toList]).getD 1 [])
                (filterParmsFor parseDictStub none 1) =
              .ok (List.replicate 128 33) from hrle]
      _ = .ok (List.replicate 102 0) := by
          rw [decompressIndices_cons,
            show applySingleFilter inflateStub (List.replicate 128 33)
                ((["/ASCII85Decode".toList, "/RunLengthDecode".toList]).getD 0 [])
                (filterParmsFor parseDictStub none 0) =
              .ok (List.replicate 102 0) from rfl]
          rfl
  · calc specDecompressInOrder inflateStub parseDictStub [129, 33]
          "[/ASCII85Decode /RunLengthDecode]".toList none
        = decompressIndices inflateStub parseDictStub
            ["/ASCII85Decode".toList, "/RunLengthDecode".toList] none [0, 1]
            [129, 33] := rfl
      _ = .error "filter /ASCII85Decode error: ascii85 decoding failed: illegal ascii85 data" := by
          rw [decompressIndices_cons,
            show applySingleFilter inflateStub [129, 33]
                ((["/ASCII85Decode".toList, "/RunLengthDecode".toList]).getD 0 [])
                (filterParmsFor parseDictStub none 0) =
              .error "ascii85 decoding failed: illegal ascii85 data" from rfl]
          rfl

/-- One spec-level filter application: feed an intermediate result through
`applySingleFilter` (with no per-filter parameters), wrapping errors as
the array loop of `DecompressStream` does. -/
def filterStep (inflate : List Nat → Except String (List Nat)) (f : List Char)
    (acc : Except String (List Nat)) : Except String (List Nat) :=
  match acc with
  | .error e => .error e
  | .ok s =>
    match applySingleFilter inflate s f none with
    | .error e => .error ("filter " ++ String.mk f ++ " error: " ++ e)
    | .ok r => .ok r

theorem foldr_filterStep_error (inflate : List Nat → Except String (List Nat))
    (fs : List (List Char)) (e : String) :
    fs.foldr (filterStep inflate) (.error e) = .error e := by
  induction fs with
  | nil => rfl
  | cons f rest ih => rw [List.foldr_cons, ih]; rfl

theorem decompressIndices_extend (inflate : List Nat → Except String (List Nat))
    (parseDict : List Char → Parms) (fs : List (List Char)) (f : List Char) :
    ∀ (idxs : List Nat), (∀ i ∈ idxs, i < fs.length) → ∀ r,
      decompressIndices inflate parseDict (fs ++ [f]) none idxs r =
        decompressIndices inflate parseDict fs none idxs r := by
  intro idxs
  induction idxs with
  | nil => intro _ r; rfl
  | cons i rest ih =>
    intro h r
    have hi : i < fs.length := h i (List.mem_cons_self _ _)
    rw [decompressIndices_cons, decompressIndices_cons,
      List.getD_append _ _ _ _ hi]
    cases applySingleFilter inflate r (fs.getD i []) (filterParmsFor parseDict none i) with
    | error e => rfl
    | ok r2 => exact ih (fun j hj => h j (List.mem_cons_of_mem _ hj)) r2

theorem decompressIndices_reverse_foldr (inflate : List Nat → Except String (List Nat))
    (parseDict : List Char → Parms) :
    ∀ (filters : List (List Char)) (stream : List Nat),
      decompressIndices inflate parseDict filters none
          ((List.range filters.length).reverse) stream =
        filters.foldr (filterStep inflate) (.ok stream) := by
  intro filters
  induction filters using List.reverseRecOn with
  | nil => intro stream; rfl
  | append_singleton fs f ih =>
    intro stream
    have hlen : (fs ++ [f]).length = fs.length + 1 := by simp
    have hr : (List.range (fs.length + 1)).reverse =
        fs.length :: (List.range fs.length).reverse := by
      rw [List.range_succ, List.reverse_append]
      rfl
    rw [hlen, hr, decompressIndices_cons]
    have hget : (fs ++ [f]).getD fs.length [] = f := by
      rw [List.getD_eq_getElem?_getD, List.getElem?_append_right (le_refl _)]
      simp
    rw [hget]
    have hparms : filterParmsFor parseDict none fs.length = none := rfl
    rw [hparms]
    rw [List.foldr_append]
    cases happ : applySingleFilter inflate stream f none with
    | error e =>
      rw [show ([f].foldr (filterStep inflate) (Except.ok stream)) =
          .error ("filter " ++ String.mk f ++ " error: " ++ e) from by
        simp only [List.foldr_cons, List.foldr_nil, filterStep, happ]]
      rw [foldr_filterStep_error]
    | ok r =>
      rw [show ([f].foldr (filterStep inflate) (Except.ok stream)) = .ok r from by
        simp only [List.foldr_cons, List.foldr_nil, filterStep, happ]]
      show decompressIndices inflate parseDict (fs ++ [f]) none
          (List.range fs.length).reverse r =
        List.foldr (filterStep inflate) (Except.ok r) fs
      rw [decompressIndices_extend inflate parseDict fs f
        ((List.range fs.length).reverse)
        (fun i hi => List.mem_range.mp (List.mem_reverse.mp hi)) r]
      exact ih r

/-- C1 (amended): for an array filter spec (and null DecodeParms, so that
no per-filter parameters apply), `DecompressStream` applies the filters in
REVERSE array order: the result is the right fold of the single-filter
application over the parsed filter array, so the LAST filter of the array
is the first decoder applied to the raw bytes. -/
theorem DecompressStream_reverse_order (inflate : List Nat → Except String (List Nat))
    (parseDict : List Char → Parms) (stream : List Nat) (filterSpec : List Char)
    (h1 : goHasPrefixLB filterSpec = true) (h2 : goHasSuffixRB filterSpec = true) :
    DecompressStream inflate parseDict stream filterSpec none =
      (ParseArray filterSpec).foldr (filterStep inflate) (.ok stream) := by
  unfold DecompressStream
  rw [if_pos (by rw [h1, h2]; rfl)]
  exact decompressIndices_reverse_foldr inflate parseDict (ParseArray filterSpec) stream

/-- C1 (witness): the reverse-order characterization at the concrete spec
`[/DCTDecode]` and stream `[7]`. -/
theorem DecompressStream_reverse_order_witness :
    DecompressStream inflateStub parseDictStub [7] "[/DCTDecode]".toList none =
      (ParseArray "[/DCTDecode]".toList).foldr (filterStep inflateStub) (.ok [7]) :=
  DecompressStream_reverse_order inflateStub parseDictStub [7]
    "[/DCTDecode]".toList (by rfl) (by rfl)

/-- C2 (counterexample): the filter name `/FlateDecode` is NOT accepted:
both the single-filter switch and the non-array path of
`DecompressStream` reject it with the default unsupported-filter error
(only the spelling `/FlatDecode` is handled). -/
theorem flateDecode_unsupported_counterexample :
    applySingleFilter inflateStub [] "/FlateDecode".toList none =
        .error "unsupported filter type: /FlateDecode" ∧
      DecompressStream inflateStub parseDictStub [] "/FlateDecode".toList none =
        .error "unsupported filter type: /FlateDecode" :=
  ⟨rfl, rfl⟩

/-- C2 (amended): only the alias spelling `/FlatDecode` is accepted for
zlib inflation: with that name the stream is inflated (identically to the
`inflate` stdlib call), and when DecodeParms carries a `/Predictor` that
parses to a value of at least 2, the predictor post-processing runs on
the inflated bytes; the standard name `/FlateDecode` falls through to the
default case and errors as unsupported for every stream and DecodeParms. -/
theorem applySingleFilter_flatDecode (inflate : List Nat → Except String (List Nat))
    (stream : List Nat) (parms : Parms) (p : List Char) (d : List Nat) :
    (∀ dp : Option Parms, applySingleFilter inflate stream "/FlateDecode".toList dp =
        .error "unsupported filter type: /FlateDecode") ∧
      applySingleFilter inflate stream "/FlatDecode".toList none = inflate stream ∧
      (inflate stream = .ok d → parms.lookup "Predictor" = some p →
        goAtoiOrZero p > 1 →
        applySingleFilter inflate stream "/FlatDecode".toList (some parms) =
          applyPredictor d (goAtoiOrZero p) parms) := by
  refine ⟨fun dp => rfl, ?_, ?_⟩
  · unfold applySingleFilter
    rw [if_pos rfl]
    cases inflate stream <;> rfl
  · intro hinf hlook hgt
    unfold applySingleFilter
    rw [if_pos rfl, hinf]
    show (match parms.lookup "Predictor" with
          | none => Except.ok d
          | some predictorStr =>
            if goAtoiOrZero predictorStr > 1 then
              applyPredictor d (goAtoiOrZero predictorStr) parms
            else Except.ok d) = applyPredictor d (goAtoiOrZero p) parms
    rw [hlook]
    simp only [hgt, if_true]

/-- C2 (witness): the amended statement instantiated at a stand-in
inflater returning `[0, 65]`, DecodeParms `Predictor 12, Columns 1`, with
all hypotheses discharged by evaluation. -/
theorem applySingleFilter_flatDecode_witness :
    applySingleFilter (fun _ => .ok [0, 65]) [] "/FlatDecode".toList
        (some [("Predictor", "12".toList), ("Columns", "1".toList)]) =
      applyPredictor [0, 65] (goAtoiOrZero "12".toList)
        [("Predictor", "12".toList), ("Columns", "1".toList)] :=
  (applySingleFilter_flatDecode (fun _ => .ok [0, 65]) []
      [("Predictor", "12".toList), ("Columns", "1".toList)] "12".toList
      [0, 65]).2.2 rfl rfl (by decide)

end Pdfex
